import Mathlib

/-!
# Shallow embedding of the `tant` shell session engine

This file embeds, in Lean 4, the parts of the repository that the
verification claims are about:

* `src/parser.rs` — `TerminalParser`: the marker scan buffer, the
  OSC 133 shell-integration marker scanner (`detect_shell_integration_markers`,
  `parse_git_info`), `process`, `take_events`, `is_alt_screen_active`.
* `src/main.rs` — the per-pane block lifecycle controller (the
  `Message::Tick` event drain), and the close operations `close_tab_at`
  and `close_active_pane`.
* `src/renderer.rs` — the render diff cache (`compute_row_hash`,
  `compute_runs`, and the per-row cache logic of `TerminalCanvas::draw`).

Modelling conventions:

* Bytes are `Nat`; byte buffers are `List Nat`.  The Rust code decodes the
  scan buffer with `String::from_utf8_lossy` and searches for ASCII marker
  strings; since every marker byte is ASCII (and ASCII bytes are decoded
  identically and can never be produced or consumed by a U+FFFD replacement),
  substring search on the raw bytes matches substring search on the decoded
  string occurrence-for-occurrence, so the scan is modelled directly on bytes.
* The vt100 terminal-emulation grid is an external library (`vt100` crate),
  explicitly out of scope in the repository design; its visible-screen
  snapshot `screen_text()` is modelled as an opaque `String` field carried by
  the parser state and not altered by the modelled operations.
* `chrono::Utc::now()` is modelled by an explicit clock `clock : Nat → Int`
  (milliseconds) together with a reading index that is incremented at every
  call site, exactly mirroring where the Rust code calls `Utc::now()`.
  The `as u64` cast applied to `num_milliseconds()` is modelled by a
  two's-complement reinterpretation modulo `2 ^ 64`.
-/

namespace Tant

/-! ## Byte-level substring search (Rust `str::find` / `str::rfind` / `contains`) -/

/-- `findSub pat s` is the least index `i` such that `pat` is a prefix of
`s.drop i`, as `str::find` returns for a nonempty ASCII pattern. -/
def findSub (pat : List Nat) : List Nat → Option Nat
  | [] => if pat = [] then some 0 else none
  | a :: t =>
    if pat.isPrefixOf (a :: t) then some 0
    else (findSub pat t).map (· + 1)

/-- `rfindSub pat s` is the greatest index `i` such that `pat` is a prefix of
`s.drop i`, as `str::rfind` returns. -/
def rfindSub (pat : List Nat) : List Nat → Option Nat
  | [] => if pat = [] then some 0 else none
  | a :: t =>
    match rfindSub pat t with
    | some j => some (j + 1)
    | none => if pat.isPrefixOf (a :: t) then some 0 else none

/-- Rust `str::contains`. -/
def containsSub (pat s : List Nat) : Bool := (findSub pat s).isSome

/-! ## Marker byte strings (`parser.rs` constants) -/

/-- `"\x1b]133;A"` — OSC_PROMPT_START. -/
def OSC_PROMPT_START : List Nat := [27, 93, 49, 51, 51, 59, 65]

/-- `"\x1b]133;C"` — OSC_COMMAND_START. -/
def OSC_COMMAND_START : List Nat := [27, 93, 49, 51, 51, 59, 67]

/-- `"\x1b]133;D"` — OSC_COMMAND_END_PREFIX. -/
def OSC_COMMAND_END_PREFIX : List Nat := [27, 93, 49, 51, 51, 59, 68]

/-- `"\x1b]133;G;"` — OSC_GIT_INFO_PREFIX. -/
def OSC_GIT_INFO_PREFIX : List Nat := [27, 93, 49, 51, 51, 59, 71, 59]

/-- `"\x1b[?1049h"` — alternate-screen enter. -/
def ALT_SCREEN_ENTER : List Nat := [27, 91, 63, 49, 48, 52, 57, 104]

/-- `"\x1b[?1049l"` — alternate-screen exit. -/
def ALT_SCREEN_EXIT : List Nat := [27, 91, 63, 49, 48, 52, 57, 108]

/-- BEL terminator `"\x07"`. -/
def BEL : List Nat := [7]

/-- ST terminator `"\x1b\\"`. -/
def ST : List Nat := [27, 92]

/-! ## Integer exit-code parsing (Rust `str::trim` + `parse::<i32>()`) -/

/-- ASCII whitespace bytes trimmed by `str::trim` (the ASCII part of
`char::is_whitespace`): TAB, LF, VT, FF, CR, SPACE. -/
def isAsciiWs (b : Nat) : Bool := b = 9 || b = 10 || b = 11 || b = 12 || b = 13 || b = 32

/-- Rust `str::trim` on an ASCII byte string. -/
def trimBytes (s : List Nat) : List Nat :=
  ((s.dropWhile isAsciiWs).reverse.dropWhile isAsciiWs).reverse

/-- Parse a nonempty all-digit byte string to its value
(`i32::from_str` on the digit part). -/
def parseDigits (l : List Nat) : Option Nat :=
  if l = [] then none
  else if l.all (fun b => 48 ≤ b && b ≤ 57) then
    some (l.foldl (fun acc b => acc * 10 + (b - 48)) 0)
  else none

/-- Rust `str::parse::<i32>()`: optional `+`/`-` sign, one or more ASCII
digits, failure on anything else or on overflow of the `i32` range. -/
def parseI32 (s : List Nat) : Option Int :=
  match s with
  | [] => none
  | c :: rest =>
    if c = 43 then
      (parseDigits rest).bind fun n =>
        if n ≤ 2 ^ 31 - 1 then some (n : Int) else none
    else if c = 45 then
      (parseDigits rest).bind fun n =>
        if n ≤ 2 ^ 31 then some (-(n : Int)) else none
    else
      (parseDigits (c :: rest)).bind fun n =>
        if n ≤ 2 ^ 31 - 1 then some (n : Int) else none

/-! ## Git info payload parsing (`parse_git_info`) -/

/-- `GitStatus` from `parser.rs`. -/
inductive GitStatus
  | clean
  | dirty
  | conflicts
deriving DecidableEq, Repr

/-- Rust `str::split(';')`: splits on every `;`, keeping empty segments
(so `""` gives `[""]` and a trailing `;` gives a trailing `""`). -/
def splitSemi : List Nat → List (List Nat)
  | [] => [[]]
  | 59 :: t => [] :: splitSemi t
  | a :: t =>
    match splitSemi t with
    | h :: r => (a :: h) :: r
    | [] => [[a]]

/-- Rust `str::split_once('=')`: split at the first `=` if any. -/
def splitOnceEq (s : List Nat) : Option (List Nat × List Nat) :=
  (findSub [61] s).map fun i => (s.take i, s.drop (i + 1))

/-- `"branch"` as bytes. -/
def KEY_BRANCH : List Nat := [98, 114, 97, 110, 99, 104]

/-- `"status"` as bytes. -/
def KEY_STATUS : List Nat := [115, 116, 97, 116, 117, 115]

/-- `"clean"`, `"dirty"`, `"conflicts"` as bytes. -/
def VAL_CLEAN : List Nat := [99, 108, 101, 97, 110]

def VAL_DIRTY : List Nat := [100, 105, 114, 116, 121]

def VAL_CONFLICTS : List Nat := [99, 111, 110, 102, 108, 105, 99, 116, 115]

/-- The `status` value mapping inside `parse_git_info`. -/
def statusOfBytes (v : List Nat) : Option GitStatus :=
  if v = VAL_CLEAN then some GitStatus.clean
  else if v = VAL_DIRTY then some GitStatus.dirty
  else if v = VAL_CONFLICTS then some GitStatus.conflicts
  else none

/-- The accumulating loop of `parse_git_info`: every segment must contain
`=` (the `?` operator aborts the whole parse otherwise); a nonempty
`branch` value overwrites the accumulator; every `status` value overwrites
the status accumulator (possibly with `none`). -/
def gitFold : List (List Nat) → Option (List Nat) → Option GitStatus →
    Option (Option (List Nat) × Option GitStatus)
  | [], b, s => some (b, s)
  | part :: rest, b, s =>
    match splitOnceEq part with
    | none => none
    | some (k, v) =>
      if k = KEY_BRANCH then
        gitFold rest (if v ≠ [] then some v else b) s
      else if k = KEY_STATUS then
        gitFold rest b (statusOfBytes v)
      else
        gitFold rest b s

/-- `TerminalParser::parse_git_info`. -/
def parse_git_info (payload : List Nat) : Option (List Nat × Option GitStatus) :=
  match gitFold (splitSemi payload) none none with
  | none => none
  | some (b, s) => b.map fun branch => (branch, s)

/-! ## Parser events and parser state -/

/-- `ParserEvent` from `parser.rs`.  Branch names are kept as byte strings. -/
inductive ParserEvent
  | commandStart
  | command (text : List Nat)
  | commandEnd (code : Int)
  | directory (path : List Nat)
  | gitInfo (branch : List Nat) (status : Option GitStatus)
  | promptShown
deriving DecidableEq, Repr

/-- `TerminalParser` state.  The `vt100::Parser` grid is external; its
visible-screen snapshot (`screen_text()`) is modelled by the opaque
`screenText` field, which the modelled operations never change. -/
structure TerminalParser where
  events : List ParserEvent
  buffer : List Nat
  in_command : Bool
  alt_screen_active : Bool
  dirty : Bool
  screenText : List Nat
deriving DecidableEq, Repr

namespace TerminalParser

/-- `TerminalParser::new` (grid snapshot starts empty). -/
def new : TerminalParser :=
  { events := [], buffer := [], in_command := false, alt_screen_active := false,
    dirty := true, screenText := [] }

/-- The command-end extraction inside `detect_shell_integration_markers`:
find the *first* occurrence of `OSC 133;D`, take the bytes up to the first
BEL (or, failing that, the first ST), strip a leading `;`, trim, and parse
as `i32`. -/
def extractCmdEnd (buf : List Nat) : Option Int :=
  match findSub OSC_COMMAND_END_PREFIX buf with
  | none => none
  | some pos =>
    let rest := buf.drop (pos + OSC_COMMAND_END_PREFIX.length)
    match (findSub BEL rest).or (findSub ST rest) with
    | none => none
    | some endPos =>
      match rest.take endPos with
      | 59 :: exitStr => parseI32 (trimBytes exitStr)
      | _ => none

/-- The git-info extraction inside `detect_shell_integration_markers`:
find the *last* occurrence of `OSC 133;G;`, take the bytes up to the first
BEL (or, failing that, the first ST), and run `parse_git_info`. -/
def extractGitInfo (buf : List Nat) : Option (List Nat × Option GitStatus) :=
  match rfindSub OSC_GIT_INFO_PREFIX buf with
  | none => none
  | some pos =>
    let rest := buf.drop (pos + OSC_GIT_INFO_PREFIX.length)
    match (findSub BEL rest).or (findSub ST rest) with
    | none => none
    | some endPos => parse_git_info (rest.take endPos)

/-- `TerminalParser::detect_shell_integration_markers`: scan the whole
accumulated buffer, push events, then enforce the buffer cap (truncation to
the most recent 4096 bytes happens *after* scanning). -/
def detect_shell_integration_markers (st : TerminalParser) : TerminalParser :=
  let buf := st.buffer
  let alt1 := if containsSub ALT_SCREEN_ENTER buf then true else st.alt_screen_active
  let alt2 := if containsSub ALT_SCREEN_EXIT buf then false else alt1
  let ev1 := if containsSub OSC_PROMPT_START buf then
    st.events ++ [ParserEvent.promptShown] else st.events
  let ev2 := if containsSub OSC_COMMAND_START buf then
    ev1 ++ [ParserEvent.commandStart] else ev1
  let inCmd1 := if containsSub OSC_COMMAND_START buf then true else st.in_command
  let ev3 := match extractCmdEnd buf with
    | some code => ev2 ++ [ParserEvent.commandEnd code]
    | none => ev2
  let inCmd2 := if (extractCmdEnd buf).isSome then false else inCmd1
  let ev4 := match extractGitInfo buf with
    | some (b, s) => ev3 ++ [ParserEvent.gitInfo b s]
    | none => ev3
  let buf2 := if buf.length > 8192 then buf.drop (buf.length - 4096) else buf
  { st with events := ev4, buffer := buf2, in_command := inCmd2,
            alt_screen_active := alt2 }

/-- `TerminalParser::process`: append the data to the scan buffer, run the
marker scan, (feed the same bytes to the external vt100 grid,) mark dirty. -/
def process (data : List Nat) (st : TerminalParser) : TerminalParser :=
  let st1 := { st with buffer := st.buffer ++ data }
  let st2 := detect_shell_integration_markers st1
  { st2 with dirty := true }

/-- `TerminalParser::take_events`: drain the FIFO queue. -/
def take_events (st : TerminalParser) : List ParserEvent × TerminalParser :=
  (st.events, { st with events := [] })

/-- `TerminalParser::is_alt_screen_active`. -/
def is_alt_screen_active (st : TerminalParser) : Bool := st.alt_screen_active

/-- `TerminalParser::screen_text` (opaque grid snapshot). -/
def screen_text (st : TerminalParser) : List Nat := st.screenText

end TerminalParser

/-! ## Block lifecycle controller (`main.rs`, `Message::Tick` drain)

`chrono::Utc::now()` is modelled by a clock function `clock : Nat → Int`
(timestamps in milliseconds) and a reading index `k`; every call site of
`Utc::now()` in the Rust code consumes one reading and advances the index.
`(now - start).num_milliseconds() as u64` is the millisecond delta
reinterpreted as a `u64` (two's complement, modulo `2 ^ 64`). -/

/-- The `as u64` cast of an `i64` millisecond delta. -/
def u64cast (d : Int) : Nat := (d % (2 : Int) ^ 64).toNat

/-- `Block` from `main.rs`.  Strings are byte lists; `output_range` is
always `none` in the modelled code paths. -/
structure Block where
  command : List Nat
  started_at : Option Int
  ended_at : Option Int
  duration_ms : Option Nat
  exit_code : Option Int
  cwd : Option (List Nat)
  output_range : Option (Nat × Nat)
  pinned : Bool
  tags : List (List Nat)
  selected : Bool
  output : List Nat
  git_branch : Option (List Nat)
  git_status : Option GitStatus
  host : List Nat
  is_remote : Bool
  collapsed : Bool
deriving DecidableEq, Repr

/-- `HostInfo` from `main.rs` (`self.host_info`). -/
structure HostInfo where
  display : List Nat
  is_remote : Bool
deriving DecidableEq, Repr

/-- `Pane` from `main.rs`, restricted to the fields the block lifecycle
controller and the close operations read or write (the pty handle, the
data channel, selection state and AI-panel state are orthogonal). -/
structure Pane where
  parser : TerminalParser
  history : List Block
  current_block : Option Block
  working_directory : List Nat
  scroll_offset : Nat
  follow_mode : Bool
deriving DecidableEq, Repr

/-- The fresh `Block` built by the `ParserEvent::CommandStart` arm
(`main.rs` lines 1816–1833), with `started_at` taken from one
`Utc::now()` reading. -/
def newBlock (now : Int) (wd : List Nat) (host : HostInfo) : Block :=
  { command := [], started_at := some now, ended_at := none,
    duration_ms := none, exit_code := none, cwd := some wd,
    output_range := none, pinned := false, tags := [], selected := false,
    output := [], git_branch := none, git_status := none,
    host := host.display, is_remote := host.is_remote, collapsed := false }

/-- One drained `ParserEvent` applied to a pane, exactly as the `match` in
the `Message::Tick` arm of `update` (`main.rs` lines 1797–1866).  Returns
the updated pane and the clock index after the `Utc::now()` calls this arm
performed. -/
def handleEvent (clock : Nat → Int) (host : HostInfo) (ev : ParserEvent)
    (pane : Pane) (k : Nat) : Pane × Nat :=
  match ev with
  | ParserEvent.promptShown => (pane, k)
  | ParserEvent.commandStart =>
    match pane.current_block with
    | some block =>
      let (block1, k1) :=
        match block.started_at with
        | some start =>
          ({ block with ended_at := some (clock k),
                        duration_ms := some (u64cast (clock (k + 1) - start)) },
           k + 2)
        | none => (block, k)
      let block2 := { block1 with output := pane.parser.screen_text }
      ({ pane with history := pane.history ++ [block2],
                   current_block :=
                     some (newBlock (clock k1) pane.working_directory host) },
       k1 + 1)
    | none =>
      ({ pane with current_block :=
                     some (newBlock (clock k) pane.working_directory host) },
       k + 1)
  | ParserEvent.command cmd =>
    match pane.current_block with
    | some block => ({ pane with current_block := some { block with command := cmd } }, k)
    | none => (pane, k)
  | ParserEvent.directory dir =>
    let pane1 :=
      match pane.current_block with
      | some block => { pane with current_block := some { block with cwd := some dir } }
      | none => pane
    ({ pane1 with working_directory := dir }, k)
  | ParserEvent.gitInfo branch status =>
    match pane.current_block with
    | some block =>
      ({ pane with current_block :=
                     some { block with git_branch := some branch,
                                       git_status := status } }, k)
    | none => (pane, k)
  | ParserEvent.commandEnd code =>
    match pane.current_block with
    | some block =>
      let block0 := { block with exit_code := some code }
      let (block1, k1) :=
        match block0.started_at with
        | some start =>
          ({ block0 with ended_at := some (clock k),
                         duration_ms := some (u64cast (clock (k + 1) - start)) },
           k + 2)
        | none => (block0, k)
      let block2 := { block1 with output := pane.parser.screen_text }
      ({ pane with history := pane.history ++ [block2], current_block := none }, k1)
    | none => (pane, k)

/-- Drain a list of events in FIFO order through `handleEvent`. -/
def drainEvents (clock : Nat → Int) (host : HostInfo) :
    List ParserEvent → Pane → Nat → Pane × Nat
  | [], pane, k => (pane, k)
  | ev :: rest, pane, k =>
    let (pane1, k1) := handleEvent clock host ev pane k
    drainEvents clock host rest pane1 k1

/-! ## Layout, tabs and the close operations (`main.rs`) -/

/-- `Axis` from `main.rs`. -/
inductive Axis
  | horizontal
  | vertical
deriving DecidableEq, Repr

/-- `LayoutNode` from `main.rs`; the `f32` split ratio is modelled as `ℚ`. -/
inductive LayoutNode
  | leaf (pane_id : Nat)
  | split (axis : Axis) (ratio : ℚ) (left right : LayoutNode)
deriving DecidableEq, Repr

/-- `Tab` from `main.rs`. -/
structure Tab where
  root : LayoutNode
  panes : List Pane
  active_pane : Nat
  title : List Nat
deriving DecidableEq, Repr

/-- The `has_running` test of `close_tab_at`:
`pane.current_block.as_ref().map(|b| b.exit_code.is_none()).unwrap_or(false)`. -/
def paneRunning (pane : Pane) : Bool :=
  (pane.current_block.map fun b => b.exit_code.isNone).getD false

/-- `TermBlocks::remove_pane_from_layout`. -/
def remove_pane_from_layout : LayoutNode → Nat → Option LayoutNode
  | LayoutNode.leaf id, pane_id =>
    if id = pane_id then none else some (LayoutNode.leaf id)
  | LayoutNode.split axis ratio left right, pane_id =>
    match remove_pane_from_layout left pane_id,
          remove_pane_from_layout right pane_id with
    | none, none => none
    | some node, none => some node
    | none, some node => some node
    | some l, some r => some (LayoutNode.split axis ratio l r)

/-- `TermBlocks::reindex_layout`. -/
def reindex_layout : LayoutNode → Nat → LayoutNode
  | LayoutNode.leaf pane_id, removed_id =>
    LayoutNode.leaf (if pane_id > removed_id then pane_id - 1 else pane_id)
  | LayoutNode.split axis ratio left right, removed_id =>
    LayoutNode.split axis ratio (reindex_layout left removed_id)
      (reindex_layout right removed_id)

/-! ## Render diff cache (`renderer.rs`)

A screen cell carries a grapheme string and vt100 fg/bg colors.  Within the
grid bounds `vt100::Screen::cell` always returns `Some`, so a row is
modelled as a plain `List Cell`.  `iced::Color` components are `f32`
constants produced by `Color::from_rgb`; they are modelled exactly as
rationals.  The 64-bit `DefaultHasher` row hash over
`(contents, fg debug format, bg debug format)` is modelled collision-free
as the hashed input sequence itself (the `Debug` rendering of `vt100::Color`
is injective, so the color itself stands for its debug string). -/

/-- `vt100::Color`. -/
inductive VtColor
  | default
  | idx (n : Nat)
  | rgb (r g b : Nat)
deriving DecidableEq, Repr

/-- `iced::Color` as exact rational RGB components. -/
structure IcedColor where
  r : ℚ
  g : ℚ
  b : ℚ
deriving DecidableEq, Repr

/-- `renderer.rs` `default_bg_color()`: `Color::from_rgb(0.15, 0.15, 0.15)`. -/
def default_bg_color : IcedColor := ⟨15/100, 15/100, 15/100⟩

/-- `renderer.rs` `color_to_iced`. -/
def color_to_iced : VtColor → IcedColor
  | VtColor.rgb r g b => ⟨(r : ℚ) / 255, (g : ℚ) / 255, (b : ℚ) / 255⟩
  | VtColor.idx i =>
    if i = 0 then ⟨0, 0, 0⟩
    else if i = 1 then ⟨8/10, 0, 0⟩
    else if i = 2 then ⟨0, 8/10, 0⟩
    else if i = 3 then ⟨8/10, 8/10, 0⟩
    else if i = 4 then ⟨0, 0, 8/10⟩
    else if i = 5 then ⟨8/10, 0, 8/10⟩
    else if i = 6 then ⟨0, 8/10, 8/10⟩
    else if i = 7 then ⟨9/10, 9/10, 9/10⟩
    else if i = 8 then ⟨5/10, 5/10, 5/10⟩
    else if i = 9 then ⟨1, 0, 0⟩
    else if i = 10 then ⟨0, 1, 0⟩
    else if i = 11 then ⟨1, 1, 0⟩
    else if i = 12 then ⟨0, 0, 1⟩
    else if i = 13 then ⟨1, 0, 1⟩
    else if i = 14 then ⟨0, 1, 1⟩
    else if i = 15 then ⟨1, 1, 1⟩
    else ⟨9/10, 9/10, 9/10⟩
  | VtColor.default => ⟨9/10, 9/10, 9/10⟩

/-- `renderer.rs` `bgcolor_to_iced`. -/
def bgcolor_to_iced : VtColor → IcedColor
  | VtColor.default => default_bg_color
  | c => color_to_iced c

/-- A screen cell: grapheme contents (bytes) plus vt100 colors. -/
structure Cell where
  contents : List Nat
  fg : VtColor
  bg : VtColor
deriving DecidableEq, Repr

/-- `StyleRun` from `renderer.rs`; `x` and `width` are `f32` pixel values,
modelled exactly as rationals. -/
structure StyleRun where
  text : List Nat
  fg : IcedColor
  bg : IcedColor
  x : ℚ
  width : ℚ
deriving DecidableEq, Repr

/-- `compute_row_hash`: the `DefaultHasher` digest over each cell's
`(contents, fg, bg)` in column order, modelled collision-free as the hashed
input sequence itself. -/
def compute_row_hash (row : List Cell) : List (List Nat × VtColor × VtColor) :=
  row.map fun c => (c.contents, c.fg, c.bg)

/-- The inner `while` loop of `compute_runs`: consume cells while their
resolved fg/bg match the run's colors; return the appended text, the number
of cells consumed and the remaining cells. -/
def runSplit (fg bg : IcedColor) : List Cell → List Nat × Nat × List Cell
  | [] => ([], 0, [])
  | c :: rest =>
    if color_to_iced c.fg = fg ∧ bgcolor_to_iced c.bg = bg then
      let s := runSplit fg bg rest
      (c.contents ++ s.1, s.2.1 + 1, s.2.2)
    else ([], 0, c :: rest)

theorem runSplit_rest_length_le (fg bg : IcedColor) (l : List Cell) :
    (runSplit fg bg l).2.2.length ≤ l.length := by
  induction l with
  | nil => simp [runSplit]
  | cons c rest ih =>
    simp only [runSplit]
    split
    · exact le_trans ih (Nat.le_succ _)
    · exact le_refl _

/-- The column loop of `compute_runs` (`renderer.rs` lines 39–70):
`col` is the current column index, used for the run's `x` offset. -/
def computeRunsAux (cw : ℚ) : List Cell → Nat → List StyleRun
  | [], _ => []
  | c :: rest, col =>
    let fg := color_to_iced c.fg
    let bg := bgcolor_to_iced c.bg
    let s := runSplit fg bg rest
    { text := c.contents ++ s.1, fg := fg, bg := bg,
      x := (col : ℚ) * cw, width := ((s.2.1 + 1 : Nat) : ℚ) * cw } ::
      computeRunsAux cw s.2.2 (col + s.2.1 + 1)
termination_by cells _ => cells.length
decreasing_by
  exact Nat.lt_succ_of_le (runSplit_rest_length_le _ _ _)

/-- `compute_runs`. -/
def compute_runs (row : List Cell) (cw : ℚ) : List StyleRun :=
  computeRunsAux cw row 0

/-- Cache key `(tab_id, pane_id, row_index)`. -/
abbrev CacheKey := Nat × Nat × Nat

/-- The shared `HashMap`s, modelled as association lists where `insert`
prepends (so lookup of the first match realizes overwrite semantics). -/
def mapLookup {α : Type} (m : List (CacheKey × α)) (k : CacheKey) : Option α :=
  (m.find? fun e => e.1 = k).map fun e => e.2

def mapInsert {α : Type} (m : List (CacheKey × α)) (k : CacheKey) (v : α) :
    List (CacheKey × α) := (k, v) :: m

/-- The per-row body of `TerminalCanvas::draw` (`renderer.rs` lines
974–988): recompute the row hash; on mismatch (or missing entry) recompute
the runs and overwrite cache and hash entries; on match reuse the cached
runs (drawing nothing if the cache entry is absent).  Returns the runs
handed to `draw_runs`, the updated caches, and whether `compute_runs` was
invoked. -/
def drawRowStep (tab_id pane_id row_idx : Nat) (row : List Cell) (cw : ℚ)
    (cache : List (CacheKey × List StyleRun))
    (hashes : List (CacheKey × List (List Nat × VtColor × VtColor))) :
    List StyleRun × List (CacheKey × List StyleRun) ×
      List (CacheKey × List (List Nat × VtColor × VtColor)) × Bool :=
  let key : CacheKey := (tab_id, pane_id, row_idx)
  let hash := compute_row_hash row
  if mapLookup hashes key ≠ some hash then
    let runs := compute_runs row cw
    (runs, mapInsert cache key runs, mapInsert hashes key hash, true)
  else
    ((mapLookup cache key).getD [], cache, hashes, false)

/-- The application state that `close_tab_at` / `close_active_pane` touch:
the tab list, the active-tab index, and the two shared render caches
(cleared on a successful tab close). -/
structure App where
  layout : List Tab
  active_tab : Nat
  render_cache : List (CacheKey × List StyleRun)
  row_hashes : List (CacheKey × List (List Nat × VtColor × VtColor))
deriving DecidableEq, Repr

/-- `TermBlocks::close_tab_at` (`main.rs` lines 929–954). -/
def close_tab_at (app : App) (index : Nat) : App :=
  if app.layout.length ≤ 1 then app
  else
    let has_running :=
      match app.layout[index]? with
      | some tab => tab.panes.any paneRunning
      | none => false
    if has_running then app
    else if index < app.layout.length then
      let layout1 := app.layout.eraseIdx index
      let at1 :=
        if app.active_tab ≥ layout1.length then layout1.length - 1
        else if app.active_tab > index then app.active_tab - 1
        else app.active_tab
      { app with layout := layout1, active_tab := at1,
                 render_cache := [], row_hashes := [] }
    else app

/-- `TermBlocks::close_active_pane` (`main.rs` lines 1014–1046). -/
def close_active_pane (app : App) : App :=
  match app.layout[app.active_tab]? with
  | none => app
  | some tab =>
    if tab.panes.length ≤ 1 then app
    else
      let active_id := tab.active_pane
      let refused :=
        match tab.panes[active_id]? with
        | some pane => paneRunning pane
        | none => false
      if refused then app
      else
        let panes1 := tab.panes.eraseIdx active_id
        let root1 :=
          match remove_pane_from_layout tab.root active_id with
          | some r => r
          | none => LayoutNode.leaf 0
        let root2 := reindex_layout root1 active_id
        let active1 :=
          if panes1.isEmpty then 0
          else if active_id > 0 then active_id - 1
          else 0
        let tab1 := { tab with panes := panes1, root := root2,
                               active_pane := active1 }
        { app with layout := app.layout.set app.active_tab tab1 }

/-! ## Characterization of the substring search -/

/-- `pat` occurs in `s` at (byte) position `i`. -/
def occursAt (pat s : List Nat) (i : Nat) : Prop :=
  pat.isPrefixOf (s.drop i) = true

instance (pat s : List Nat) (i : Nat) : Decidable (occursAt pat s i) := by
  unfold occursAt; infer_instance

theorem occursAt_nil_false (pat : List Nat) (i : Nat) (hpat : pat ≠ []) :
    ¬ occursAt pat [] i := by
  rw [occursAt, List.drop_nil, List.isPrefixOf_iff_prefix]
  intro h
  exact hpat (List.prefix_nil.mp h)

theorem occursAt_cons_succ (pat : List Nat) (a : Nat) (t : List Nat) (j : Nat) :
    occursAt pat (a :: t) (j + 1) ↔ occursAt pat t j := by
  simp [occursAt, List.drop_succ_cons]

theorem occursAt_iff (pat s : List Nat) (i : Nat) (hpat : pat ≠ []) :
    occursAt pat s i ↔ ∃ u v, s = u ++ pat ++ v ∧ u.length = i ∧ i ≤ s.length := by
  constructor
  · intro h
    rw [occursAt, List.isPrefixOf_iff_prefix] at h
    obtain ⟨v, hv⟩ := h
    have hi : i ≤ s.length := by
      by_contra hlt
      push_neg at hlt
      rw [List.drop_eq_nil_of_le (le_of_lt hlt)] at hv
      exact hpat (List.append_eq_nil.mp hv).1
    refine ⟨s.take i, v, ?_, ?_, hi⟩
    · conv_lhs => rw [← List.take_append_drop i s]
      rw [← hv, List.append_assoc]
    · simp [hi]
  · rintro ⟨u, v, rfl, rfl, _⟩
    rw [occursAt, List.isPrefixOf_iff_prefix]
    rw [List.append_assoc, List.drop_left]
    exact ⟨v, rfl⟩

theorem findSub_eq_none_iff (pat s : List Nat) (hpat : pat ≠ []) :
    findSub pat s = none ↔ ∀ i, ¬ occursAt pat s i := by
  induction s with
  | nil =>
    rw [findSub, if_neg hpat]
    constructor
    · intro _ i
      exact occursAt_nil_false pat i hpat
    · intro _
      trivial
  | cons a t ih =>
    rw [findSub]
    by_cases hp : pat.isPrefixOf (a :: t) = true
    · rw [if_pos hp]
      constructor
      · intro h; cases h
      · intro h
        exact absurd hp (h 0)
    · rw [if_neg hp]
      constructor
      · intro h i
        have ht : findSub pat t = none := by
          cases hfs : findSub pat t with
          | none => rfl
          | some j => rw [hfs] at h; simp at h
        cases i with
        | zero => exact fun hc => hp hc
        | succ j =>
          rw [occursAt_cons_succ]
          exact (ih.mp ht) j
      · intro h
        have ht : findSub pat t = none :=
          ih.mpr (fun j => ((occursAt_cons_succ pat a t j).mp).mt (h (j + 1)))
        rw [ht]
        rfl

theorem findSub_eq_some_iff (pat s : List Nat) (i : Nat) (hpat : pat ≠ []) :
    findSub pat s = some i ↔
      occursAt pat s i ∧ ∀ j < i, ¬ occursAt pat s j := by
  induction s generalizing i with
  | nil =>
    rw [findSub, if_neg hpat]
    constructor
    · intro h; cases h
    · rintro ⟨h, -⟩
      exact absurd h (occursAt_nil_false pat i hpat)
  | cons a t ih =>
    rw [findSub]
    by_cases hp : pat.isPrefixOf (a :: t) = true
    · rw [if_pos hp]
      constructor
      · rintro h
        cases h
        exact ⟨hp, by omega⟩
      · rintro ⟨hocc, hmin⟩
        cases i with
        | zero => rfl
        | succ j => exact absurd hp (hmin 0 (Nat.succ_pos j))
    · rw [if_neg hp]
      constructor
      · intro h
        cases hfs : findSub pat t with
        | none => rw [hfs] at h; cases h
        | some j =>
          rw [hfs] at h
          simp only [Option.map_some'] at h
          cases h
          obtain ⟨hocc, hmin⟩ := (ih j).mp hfs
          refine ⟨(occursAt_cons_succ pat a t j).mpr hocc, ?_⟩
          intro j' hj'
          cases j' with
          | zero => exact fun hc => hp hc
          | succ j'' =>
            rw [occursAt_cons_succ]
            exact hmin j'' (by omega)
      · rintro ⟨hocc, hmin⟩
        cases i with
        | zero => exact absurd hocc hp
        | succ j =>
          have : findSub pat t = some j :=
            (ih j).mpr ⟨(occursAt_cons_succ pat a t j).mp hocc,
              fun j' hj' =>
                ((occursAt_cons_succ pat a t j').mp).mt (hmin (j' + 1) (by omega))⟩
          rw [this]
          rfl

theorem rfindSub_eq_none_iff (pat s : List Nat) (hpat : pat ≠ []) :
    rfindSub pat s = none ↔ ∀ i, ¬ occursAt pat s i := by
  induction s with
  | nil =>
    rw [rfindSub, if_neg hpat]
    constructor
    · intro _ i
      exact occursAt_nil_false pat i hpat
    · intro _
      trivial
  | cons a t ih =>
    rw [rfindSub]
    cases hrt : rfindSub pat t with
    | some j =>
      constructor
      · intro h; cases h
      · intro h
        exfalso
        have := ih.mpr fun i => (occursAt_cons_succ pat a t i).mp.mt (h (i + 1))
        rw [hrt] at this; cases this
    | none =>
      by_cases hp : pat.isPrefixOf (a :: t) = true
      · simp only [hp, if_true]
        constructor
        · intro h; cases h
        · intro h; exact absurd hp (h 0)
      · rw [if_neg hp]
        constructor
        · intro _ i
          cases i with
          | zero => exact fun hc => hp hc
          | succ j =>
            rw [occursAt_cons_succ]
            exact ih.mp hrt j
        · intro _; rfl

theorem rfindSub_eq_some_iff (pat s : List Nat) (i : Nat) (hpat : pat ≠ []) :
    rfindSub pat s = some i ↔
      occursAt pat s i ∧ ∀ j, i < j → ¬ occursAt pat s j := by
  induction s generalizing i with
  | nil =>
    simp only [rfindSub, if_neg hpat]
    constructor
    · intro h; cases h
    · rintro ⟨h, -⟩
      exact absurd h (occursAt_nil_false pat i hpat)
  | cons a t ih =>
    simp only [rfindSub]
    cases hrt : rfindSub pat t with
    | some j =>
      obtain ⟨hocc, hmax⟩ := (ih j).mp hrt
      constructor
      · intro h
        cases h
        refine ⟨(occursAt_cons_succ pat a t j).mpr hocc, ?_⟩
        intro j' hj'
        cases j' with
        | zero => omega
        | succ j'' =>
          rw [occursAt_cons_succ]
          exact hmax j'' (by omega)
      · rintro ⟨hocc', hmax'⟩
        cases i with
        | zero =>
          exfalso
          exact hmax' (j + 1) (Nat.succ_pos j)
            ((occursAt_cons_succ pat a t j).mpr hocc)
        | succ i' =>
          have : rfindSub pat t = some i' := by
            refine (ih i').mpr ⟨(occursAt_cons_succ pat a t i').mp hocc', ?_⟩
            intro j' hj'
            exact ((occursAt_cons_succ pat a t j').mp).mt (hmax' (j' + 1) (by omega))
          rw [hrt] at this
          cases this
          rfl
    | none =>
      have hnone := (rfindSub_eq_none_iff pat t hpat).mp hrt
      by_cases hp : pat.isPrefixOf (a :: t) = true
      · simp only [hp, if_true]
        constructor
        · intro h
          cases h
          refine ⟨hp, ?_⟩
          intro j hj
          cases j with
          | zero => omega
          | succ j' =>
            rw [occursAt_cons_succ]
            exact hnone j'
        · rintro ⟨hocc', -⟩
          cases i with
          | zero => rfl
          | succ i' =>
            exact absurd ((occursAt_cons_succ pat a t i').mp hocc') (hnone i')
      · rw [if_neg hp]
        constructor
        · intro h; cases h
        · rintro ⟨hocc', -⟩
          cases i with
          | zero => exact absurd hocc' hp
          | succ i' =>
            exact absurd ((occursAt_cons_succ pat a t i').mp hocc') (hnone i')

theorem containsSub_iff (pat s : List Nat) (hpat : pat ≠ []) :
    containsSub pat s = true ↔ ∃ i, occursAt pat s i := by
  rw [containsSub]
  cases hfs : findSub pat s with
  | none =>
    simp only [Option.isSome_none, Bool.false_eq_true, false_iff]
    rintro ⟨i, hi⟩
    exact (findSub_eq_none_iff pat s hpat).mp hfs i hi
  | some j =>
    simp only [Option.isSome_some, true_iff]
    exact ⟨j, ((findSub_eq_some_iff pat s j hpat).mp hfs).1⟩

/-! ## Decomposition of one scan pass into its emitted events -/

/-- The events one run of `detect_shell_integration_markers` appends for a
given (untruncated) buffer content, in emission order. -/
def scanEvents (buf : List Nat) : List ParserEvent :=
  (if containsSub OSC_PROMPT_START buf then [ParserEvent.promptShown] else []) ++
  (if containsSub OSC_COMMAND_START buf then [ParserEvent.commandStart] else []) ++
  (match TerminalParser.extractCmdEnd buf with
   | some code => [ParserEvent.commandEnd code]
   | none => []) ++
  (match TerminalParser.extractGitInfo buf with
   | some (b, s) => [ParserEvent.gitInfo b s]
   | none => [])

theorem detect_markers_events (st : TerminalParser) :
    (st.detect_shell_integration_markers).events = st.events ++ scanEvents st.buffer := by
  rw [TerminalParser.detect_shell_integration_markers, scanEvents]
  by_cases h1 : containsSub OSC_PROMPT_START st.buffer = true <;>
    by_cases h2 : containsSub OSC_COMMAND_START st.buffer = true <;>
      cases h3 : TerminalParser.extractCmdEnd st.buffer <;>
        cases h4 : TerminalParser.extractGitInfo st.buffer <;>
          simp_all

theorem process_events (st : TerminalParser) (data : List Nat) :
    (st.process data).events = st.events ++ scanEvents (st.buffer ++ data) := by
  rw [TerminalParser.process]
  exact detect_markers_events { st with buffer := st.buffer ++ data }

/-- Discriminator for `CommandEnd` events. -/
def isCmdEndEv : ParserEvent → Bool
  | ParserEvent.commandEnd _ => true
  | _ => false

/-- Discriminator for `GitInfo` events. -/
def isGitEv : ParserEvent → Bool
  | ParserEvent.gitInfo _ _ => true
  | _ => false

theorem scanEvents_filter_cmdEnd (buf : List Nat) :
    (scanEvents buf).filter isCmdEndEv =
      match TerminalParser.extractCmdEnd buf with
      | some code => [ParserEvent.commandEnd code]
      | none => [] := by
  rw [scanEvents]
  by_cases h1 : containsSub OSC_PROMPT_START buf = true <;>
    by_cases h2 : containsSub OSC_COMMAND_START buf = true <;>
      cases h3 : TerminalParser.extractCmdEnd buf <;>
        cases h4 : TerminalParser.extractGitInfo buf <;>
          simp_all [List.filter, isCmdEndEv]

theorem scanEvents_filter_git (buf : List Nat) :
    (scanEvents buf).filter isGitEv =
      match TerminalParser.extractGitInfo buf with
      | some (b, s) => [ParserEvent.gitInfo b s]
      | none => [] := by
  rw [scanEvents]
  by_cases h1 : containsSub OSC_PROMPT_START buf = true <;>
    by_cases h2 : containsSub OSC_COMMAND_START buf = true <;>
      cases h3 : TerminalParser.extractCmdEnd buf <;>
        cases h4 : TerminalParser.extractGitInfo buf <;>
          simp_all [List.filter, isGitEv]

theorem process_buffer (st : TerminalParser) (data : List Nat) :
    (st.process data).buffer =
      if (st.buffer ++ data).length > 8192 then
        (st.buffer ++ data).drop ((st.buffer ++ data).length - 4096)
      else st.buffer ++ data := by
  rw [TerminalParser.process, TerminalParser.detect_shell_integration_markers]

theorem process_alt (st : TerminalParser) (data : List Nat) :
    (st.process data).alt_screen_active =
      (if containsSub ALT_SCREEN_EXIT (st.buffer ++ data) then false
       else if containsSub ALT_SCREEN_ENTER (st.buffer ++ data) then true
       else st.alt_screen_active) := by
  rw [TerminalParser.process, TerminalParser.detect_shell_integration_markers]

/-! ## Locating structurally given marker occurrences -/

theorem occursAt_ge_length_false (pat s : List Nat) (hpat : pat ≠ []) (j : Nat)
    (h : s.length ≤ j) : ¬ occursAt pat s j := by
  rw [occursAt, List.drop_eq_nil_of_le h, List.isPrefixOf_iff_prefix]
  intro hc
  exact hpat (List.prefix_nil.mp hc)

theorem no_occursAt_of_all_range (pat s : List Nat) (hpat : pat ≠ []) (i : Nat)
    (h : ∀ j ∈ List.range (s.length + 1), i < j → ¬ occursAt pat s j) :
    ∀ j, i < j → ¬ occursAt pat s j := by
  intro j hij hocc
  by_cases hlen : j ≤ s.length
  · exact h j (List.mem_range.mpr (by omega)) hij hocc
  · exact occursAt_ge_length_false pat s hpat j (by omega) hocc

theorem occursAt_single_iff (c : Nat) (s : List Nat) (j : Nat) :
    occursAt [c] s j ↔ (s.drop j).head? = some c := by
  rw [occursAt, List.isPrefixOf_iff_prefix]
  constructor
  · rintro ⟨v, hv⟩
    rw [← hv]
    rfl
  · intro h
    cases hd : s.drop j with
    | nil => rw [hd] at h; cases h
    | cons a t =>
      rw [hd] at h
      cases h
      exact ⟨t, rfl⟩

theorem findSub_single_append (c : Nat) (l r : List Nat) (h : c ∉ l) :
    findSub [c] (l ++ c :: r) = some l.length := by
  rw [findSub_eq_some_iff _ _ _ (by simp)]
  constructor
  · rw [occursAt_single_iff, List.drop_left]
    rfl
  · intro j hj
    rw [occursAt_single_iff]
    intro hc
    apply h
    rw [List.head?_drop, List.getElem?_append_left hj] at hc
    exact List.mem_iff_getElem?.mpr ⟨j, hc⟩

theorem trimBytes_eq_self (l : List Nat) (h : ∀ b ∈ l, isAsciiWs b = false) :
    trimBytes l = l := by
  rw [trimBytes]
  have h1 : l.dropWhile isAsciiWs = l := by
    cases hl : l with
    | nil => rfl
    | cons a t =>
      rw [List.dropWhile_cons, h a (hl ▸ List.mem_cons_self a t)]
      rfl
  rw [h1]
  have h2 : l.reverse.dropWhile isAsciiWs = l.reverse := by
    cases hl : l.reverse with
    | nil => rfl
    | cons a t =>
      have ha : a ∈ l := by
        rw [← List.mem_reverse, hl]
        exact List.mem_cons_self a t
      rw [List.dropWhile_cons, h a ha]
      rfl
  rw [h2, List.reverse_reverse]

/-- The accumulated value of an all-digit byte string. -/
def digitsVal (l : List Nat) : Nat :=
  l.foldl (fun acc b => acc * 10 + (b - 48)) 0

theorem parseDigits_eq_some (l : List Nat) (hne : l ≠ [])
    (hdig : ∀ b ∈ l, 48 ≤ b ∧ b ≤ 57) :
    parseDigits l = some (digitsVal l) := by
  cases l with
  | nil => exact absurd rfl hne
  | cons d ds =>
    have hall : (d :: ds).all (fun b => 48 ≤ b && b ≤ 57) = true := by
      rw [List.all_eq_true]
      intro b hb
      have := hdig b hb
      simp only [Bool.and_eq_true, decide_eq_true_eq]
      omega
    rw [parseDigits, if_neg hne, if_pos hall]
    rfl

theorem parseI32_digits (l : List Nat) (hne : l ≠ [])
    (hdig : ∀ b ∈ l, 48 ≤ b ∧ b ≤ 57) (hrange : digitsVal l ≤ 2 ^ 31 - 1) :
    parseI32 l = some (Int.ofNat (digitsVal l)) := by
  cases l with
  | nil => exact absurd rfl hne
  | cons d ds =>
    have hd := hdig d (List.mem_cons_self d ds)
    have h43 : ¬ d = 43 := by omega
    have h45 : ¬ d = 45 := by omega
    have hps := parseDigits_eq_some (d :: ds) hne hdig
    simp only [parseI32, if_neg h43, if_neg h45, hps, Option.some_bind,
      if_pos hrange]
    rfl

/-- Structure lemma for the command-end extraction: when the *leftmost*
occurrence of `OSC 133;D` is followed by `;<digits>` and a BEL, the
extraction parses exactly those digits. -/
theorem extractCmdEnd_structure (A digits B : List Nat)
    (hA : ∀ j < A.length,
      ¬ occursAt OSC_COMMAND_END_PREFIX
        (A ++ OSC_COMMAND_END_PREFIX ++ 59 :: digits ++ BEL ++ B) j)
    (hne : digits ≠ []) (hdig : ∀ b ∈ digits, 48 ≤ b ∧ b ≤ 57)
    (hrange : digitsVal digits ≤ 2 ^ 31 - 1) :
    TerminalParser.extractCmdEnd
        (A ++ OSC_COMMAND_END_PREFIX ++ 59 :: digits ++ BEL ++ B) =
      some (Int.ofNat (digitsVal digits)) := by
  have hifind : findSub OSC_COMMAND_END_PREFIX
      (A ++ OSC_COMMAND_END_PREFIX ++ 59 :: digits ++ BEL ++ B) = some A.length := by
    rw [findSub_eq_some_iff _ _ _ (by simp [OSC_COMMAND_END_PREFIX])]
    refine ⟨?_, hA⟩
    rw [occursAt, List.append_assoc, List.append_assoc, List.append_assoc,
      List.drop_left, List.isPrefixOf_iff_prefix]
    exact ⟨59 :: digits ++ (BEL ++ B), by simp⟩
  rw [TerminalParser.extractCmdEnd, hifind]
  dsimp only
  have hrest : (A ++ OSC_COMMAND_END_PREFIX ++ 59 :: digits ++ BEL ++ B).drop
      (A.length + OSC_COMMAND_END_PREFIX.length) = 59 :: digits ++ BEL ++ B := by
    have : A ++ OSC_COMMAND_END_PREFIX ++ 59 :: digits ++ BEL ++ B =
        (A ++ OSC_COMMAND_END_PREFIX) ++ (59 :: digits ++ BEL ++ B) := by
      simp [List.append_assoc]
    rw [this]
    have hlen : A.length + OSC_COMMAND_END_PREFIX.length =
        (A ++ OSC_COMMAND_END_PREFIX).length := (List.length_append _ _).symm
    rw [hlen, List.drop_left]
  rw [hrest]
  have h7 : (7 : Nat) ∉ (59 : Nat) :: digits := by
    intro hmem
    rcases List.mem_cons.mp hmem with h | h
    · omega
    · have := hdig 7 h; omega
  have hfind7 : findSub BEL (59 :: digits ++ BEL ++ B) = some (digits.length + 1) := by
    have : (59 : Nat) :: digits ++ BEL ++ B = ((59 : Nat) :: digits) ++ 7 :: B := by
      simp [BEL]
    rw [this, BEL, findSub_single_append 7 (59 :: digits) B h7]
    simp
  rw [hfind7]
  simp only [Option.or_some]
  have htake : (59 :: digits ++ BEL ++ B).take (digits.length + 1) = 59 :: digits := by
    have h1 : (59 : Nat) :: digits ++ BEL ++ B = ((59 : Nat) :: digits) ++ (BEL ++ B) := by
      simp
    have h2 : digits.length + 1 = ((59 : Nat) :: digits).length := by simp
    rw [h1, h2, List.take_left]
  rw [htake]
  have hmatch : (match (59 : Nat) :: digits with
      | 59 :: exitStr => parseI32 (trimBytes exitStr)
      | _ => none) = parseI32 (trimBytes digits) := rfl
  rw [hmatch]
  have htrim : trimBytes digits = digits := by
    apply trimBytes_eq_self
    intro b hb
    have := hdig b hb
    simp only [isAsciiWs]
    have h48 : 48 ≤ b := this.1
    simp only [Bool.or_eq_false_iff, decide_eq_false_iff_not]
    omega
  rw [htrim]
  exact parseI32_digits digits hne hdig hrange

/-- Structure lemma for the git-info extraction: when the *rightmost*
occurrence of `OSC 133;G;` is followed by a BEL-free payload `P` and a BEL,
the extraction runs `parse_git_info` on exactly `P`. -/
theorem extractGitInfo_structure (A P B : List Nat)
    (hA : ∀ j, A.length < j →
      ¬ occursAt OSC_GIT_INFO_PREFIX (A ++ OSC_GIT_INFO_PREFIX ++ P ++ BEL ++ B) j)
    (hP : (7 : Nat) ∉ P) :
    TerminalParser.extractGitInfo (A ++ OSC_GIT_INFO_PREFIX ++ P ++ BEL ++ B) =
      parse_git_info P := by
  have hrfind : rfindSub OSC_GIT_INFO_PREFIX
      (A ++ OSC_GIT_INFO_PREFIX ++ P ++ BEL ++ B) = some A.length := by
    rw [rfindSub_eq_some_iff _ _ _ (by simp [OSC_GIT_INFO_PREFIX])]
    refine ⟨?_, hA⟩
    rw [occursAt, List.append_assoc, List.append_assoc, List.append_assoc,
      List.drop_left, List.isPrefixOf_iff_prefix]
    exact ⟨P ++ (BEL ++ B), by simp⟩
  rw [TerminalParser.extractGitInfo, hrfind]
  dsimp only
  have hrest : (A ++ OSC_GIT_INFO_PREFIX ++ P ++ BEL ++ B).drop
      (A.length + OSC_GIT_INFO_PREFIX.length) = P ++ BEL ++ B := by
    have : A ++ OSC_GIT_INFO_PREFIX ++ P ++ BEL ++ B =
        (A ++ OSC_GIT_INFO_PREFIX) ++ (P ++ BEL ++ B) := by
      simp [List.append_assoc]
    rw [this]
    have hlen : A.length + OSC_GIT_INFO_PREFIX.length =
        (A ++ OSC_GIT_INFO_PREFIX).length := (List.length_append _ _).symm
    rw [hlen, List.drop_left]
  rw [hrest]
  have hfind7 : findSub BEL (P ++ BEL ++ B) = some P.length := by
    have : P ++ BEL ++ B = P ++ 7 :: B := by simp [BEL]
    rw [this, BEL, findSub_single_append 7 P B hP]
  rw [hfind7]
  simp only [Option.or_some]
  have htake : (P ++ BEL ++ B).take P.length = P := by
    have : P ++ BEL ++ B = P ++ (BEL ++ B) := by simp
    rw [this, List.take_left]
  rw [htake]

theorem findSub_single_eq_none (c : Nat) (l : List Nat) (h : c ∉ l) :
    findSub [c] l = none := by
  rw [findSub_eq_none_iff _ _ (by simp)]
  intro i hocc
  rw [occursAt_single_iff, List.head?_drop] at hocc
  exact h (List.mem_iff_getElem?.mpr ⟨i, hocc⟩)

theorem splitOnceEq_eq_none (seg : List Nat) (h : (61 : Nat) ∉ seg) :
    splitOnceEq seg = none := by
  rw [splitOnceEq, findSub_single_eq_none 61 seg h]
  rfl

theorem gitFold_none_of_bad_seg :
    ∀ (parts : List (List Nat)) (b : Option (List Nat)) (s : Option GitStatus),
      (∃ seg ∈ parts, splitOnceEq seg = none) → gitFold parts b s = none := by
  intro parts
  induction parts with
  | nil =>
    rintro b s ⟨seg, hmem, -⟩
    cases hmem
  | cons p rest ih =>
    rintro b s ⟨seg, hmem, hseg⟩
    rcases List.mem_cons.mp hmem with h | h
    · subst h
      rw [gitFold, hseg]
    · rw [gitFold]
      cases hsp : splitOnceEq p with
      | none => rfl
      | some kv =>
        obtain ⟨k, v⟩ := kv
        dsimp only
        by_cases h1 : k = KEY_BRANCH
        · rw [if_pos h1]
          exact ih _ _ ⟨seg, h, hseg⟩
        · rw [if_neg h1]
          by_cases h2 : k = KEY_STATUS
          · rw [if_pos h2]
            exact ih _ _ ⟨seg, h, hseg⟩
          · rw [if_neg h2]
            exact ih _ _ ⟨seg, h, hseg⟩

/-! ## Claim theorems -/

/-- C5 — confirmed.  After every `process` call the scan buffer never
exceeds the 8192-byte cap; when the accumulated buffer exceeds the cap it
is truncated to exactly the most recent 4096 bytes; the truncation happens
after scanning (the appended events are computed from the full,
untruncated accumulation), and the retained buffer is a suffix of the
accumulation, so bytes cut by the truncation never return to the scan
buffer. -/
theorem C5_buffer_cap (st : TerminalParser) (data : List Nat) :
    (st.process data).buffer.length ≤ 8192 ∧
    ((st.buffer ++ data).length > 8192 →
      (st.process data).buffer =
        (st.buffer ++ data).drop ((st.buffer ++ data).length - 4096) ∧
      (st.process data).buffer.length = 4096) ∧
    ((st.buffer ++ data).length ≤ 8192 →
      (st.process data).buffer = st.buffer ++ data) ∧
    (st.process data).events = st.events ++ scanEvents (st.buffer ++ data) ∧
    (st.process data).buffer <:+ st.buffer ++ data := by
  have hb := process_buffer st data
  by_cases h : (st.buffer ++ data).length > 8192
  · rw [if_pos h] at hb
    have hlen : (st.process data).buffer.length = 4096 := by
      rw [hb, List.length_drop]
      omega
    refine ⟨by omega, fun _ => ⟨hb, hlen⟩, fun hc => absurd h (by omega),
      process_events st data, ?_⟩
    rw [hb]
    exact List.drop_suffix _ _
  · rw [if_neg h] at hb
    push_neg at h
    refine ⟨by rw [hb]; omega, fun hc => absurd hc (by omega), fun _ => hb,
      process_events st data, ?_⟩
    rw [hb]

theorem C5_buffer_cap_witness :
    (TerminalParser.new.buffer ++ List.replicate 8193 65).length > 8192 ∧
    (TerminalParser.new.process (List.replicate 8193 65)).buffer.length = 4096 := by
  have h : (TerminalParser.new.buffer ++ List.replicate 8193 65).length > 8192 := by
    simp only [TerminalParser.new, List.nil_append, List.length_replicate]
    omega
  exact ⟨h, ((C5_buffer_cap TerminalParser.new (List.replicate 8193 65)).2.1 h).2⟩

/-- The byte stream `ESC ] 1 3 3 ; D ; 0 BEL` — a well-formed command-end
marker with exit code 0. -/
def cmdEndData0 : List Nat := OSC_COMMAND_END_PREFIX ++ [59, 48, 7]

/-- The byte stream `ESC ] 1 3 3 ; D ; 1 BEL` — a well-formed command-end
marker with exit code 1. -/
def cmdEndData1 : List Nat := OSC_COMMAND_END_PREFIX ++ [59, 49, 7]

/-- C1 — counterexample.  Each of the two command-end markers alone is
well-formed and alone yields its own `CommandEnd` event, yet feeding the
concatenation of both in one `process` call yields exactly ONE
`CommandEnd(0)` event from `take_events`, not one event per well-formed
occurrence: the scanner only examines the leftmost occurrence per scan. -/
theorem C1_counterexample :
    ((TerminalParser.new.process cmdEndData0).take_events).1 =
      [ParserEvent.commandEnd 0] ∧
    ((TerminalParser.new.process cmdEndData1).take_events).1 =
      [ParserEvent.commandEnd 1] ∧
    ((TerminalParser.new.process (cmdEndData0 ++ cmdEndData1)).take_events).1 =
      [ParserEvent.commandEnd 0] := by
  refine ⟨?_, ?_, ?_⟩ <;> decide

/-- C1 — amended.  Per `process` call, the appended `CommandEnd` events are
exactly those extracted from the single leftmost occurrence of the
command-end prefix in the whole accumulated (untruncated) buffer: at most
one per call, and exactly one `CommandEnd(N)` when that leftmost occurrence
is followed by `;<digits>` (value `N` in `i32` range) and a BEL; malformed
payloads of the leftmost occurrence yield none, and further well-formed
occurrences to the right are ignored by that call. -/
theorem C1_cmdEnd_per_scan (st : TerminalParser) (data : List Nat) :
    ((st.process data).events.filter isCmdEndEv =
      st.events.filter isCmdEndEv ++
        match TerminalParser.extractCmdEnd (st.buffer ++ data) with
        | some code => [ParserEvent.commandEnd code]
        | none => []) ∧
    (∀ A digits B : List Nat,
      st.buffer ++ data = A ++ OSC_COMMAND_END_PREFIX ++ 59 :: digits ++ BEL ++ B →
      (∀ j < A.length,
        ¬ occursAt OSC_COMMAND_END_PREFIX (st.buffer ++ data) j) →
      digits ≠ [] →
      (∀ b ∈ digits, 48 ≤ b ∧ b ≤ 57) →
      digitsVal digits ≤ 2 ^ 31 - 1 →
      (st.process data).events.filter isCmdEndEv =
        st.events.filter isCmdEndEv ++
          [ParserEvent.commandEnd (Int.ofNat (digitsVal digits))]) := by
  have h1 : (st.process data).events.filter isCmdEndEv =
      st.events.filter isCmdEndEv ++
        match TerminalParser.extractCmdEnd (st.buffer ++ data) with
        | some code => [ParserEvent.commandEnd code]
        | none => [] := by
    rw [process_events, List.filter_append, scanEvents_filter_cmdEnd]
  refine ⟨h1, ?_⟩
  intro A digits B hbuf hA hne hdig hrange
  rw [h1, hbuf, extractCmdEnd_structure A digits B (hbuf ▸ hA) hne hdig hrange]

theorem C1_cmdEnd_per_scan_witness :
    (TerminalParser.new.process cmdEndData0).events.filter isCmdEndEv =
      [ParserEvent.commandEnd 0] := by
  have h := (C1_cmdEnd_per_scan TerminalParser.new cmdEndData0).2 [] [48] []
    (by decide) (by decide) (by decide) (by decide) (by decide)
  rw [h]
  decide

/-- C6 — confirmed.  When the rightmost occurrence of the git-info prefix
in the accumulated buffer is followed by a BEL-terminated payload `P`, the
`GitInfo` events appended by the `process` call are exactly the parse of
`P`: the rightmost occurrence wins (any earlier git markers sit inside the
prefix `A` and are ignored), and a payload whose `branch` key is empty or
absent parses to `none` and produces no event. -/
theorem C6_git_rightmost (st : TerminalParser) (data A P B : List Nat)
    (hbuf : st.buffer ++ data = A ++ OSC_GIT_INFO_PREFIX ++ P ++ BEL ++ B)
    (hA : ∀ j, A.length < j →
      ¬ occursAt OSC_GIT_INFO_PREFIX (st.buffer ++ data) j)
    (hP : (7 : Nat) ∉ P) :
    (st.process data).events.filter isGitEv =
      st.events.filter isGitEv ++
        match parse_git_info P with
        | some (b, s) => [ParserEvent.gitInfo b s]
        | none => [] := by
  rw [process_events, List.filter_append, scanEvents_filter_git, hbuf,
    extractGitInfo_structure A P B (hbuf ▸ hA) hP]

/-- `"branch=dev;status=dirty"` as bytes. -/
def gitPayloadDev : List Nat :=
  [98, 114, 97, 110, 99, 104, 61, 100, 101, 118, 59,
   115, 116, 97, 116, 117, 115, 61, 100, 105, 114, 116, 121]

/-- `"branch=main"` as bytes. -/
def gitPayloadMain : List Nat :=
  [98, 114, 97, 110, 99, 104, 61, 109, 97, 105, 110]

/-- Two complete git-info markers in one chunk: `branch=main` then
`branch=dev;status=dirty`. -/
def gitDataTwo : List Nat :=
  OSC_GIT_INFO_PREFIX ++ gitPayloadMain ++ BEL ++
    OSC_GIT_INFO_PREFIX ++ gitPayloadDev ++ BEL

theorem C6_git_rightmost_witness :
    parse_git_info gitPayloadMain = some ([109, 97, 105, 110], none) ∧
    parse_git_info gitPayloadDev =
      some ([100, 101, 118], some GitStatus.dirty) ∧
    (TerminalParser.new.process gitDataTwo).events.filter isGitEv =
      [ParserEvent.gitInfo [100, 101, 118] (some GitStatus.dirty)] := by
  refine ⟨by decide, by decide, ?_⟩
  have h := C6_git_rightmost TerminalParser.new gitDataTwo
    (OSC_GIT_INFO_PREFIX ++ gitPayloadMain ++ BEL) gitPayloadDev []
    (by decide)
    (no_occursAt_of_all_range _ _ (by decide) _ (by decide))
    (by decide)
  rw [h]
  decide

/-- `"branch=main;"` as bytes: a payload ending in `;`, so `split(';')`
produces a trailing empty segment with no `=`. -/
def gitBadPayload : List Nat :=
  [98, 114, 97, 110, 99, 104, 61, 109, 97, 105, 110, 59]

/-- A complete git-info marker whose payload is `gitBadPayload`. -/
def gitBadData : List Nat := OSC_GIT_INFO_PREFIX ++ gitBadPayload ++ BEL

/-- C10 — confirmed.  If any `;`-separated segment of a git-info payload
lacks an `=` (for example the trailing empty segment of a payload ending
in `;`), `parse_git_info` returns `none` — the `?` operator aborts the
whole parse — and the scan emits no `GitInfo` event at all, even when a
well-formed `branch=<name>` pair appears earlier in the same payload. -/
theorem C10_git_segment_without_eq (payload seg : List Nat)
    (hmem : seg ∈ splitSemi payload) (h61 : (61 : Nat) ∉ seg) :
    parse_git_info payload = none ∧
    (∀ (st : TerminalParser) (data A B : List Nat),
      st.buffer ++ data = A ++ OSC_GIT_INFO_PREFIX ++ payload ++ BEL ++ B →
      (∀ j, A.length < j →
        ¬ occursAt OSC_GIT_INFO_PREFIX (st.buffer ++ data) j) →
      (7 : Nat) ∉ payload →
      (st.process data).events.filter isGitEv = st.events.filter isGitEv) := by
  have hpg : parse_git_info payload = none := by
    rw [parse_git_info, gitFold_none_of_bad_seg (splitSemi payload) none none
      ⟨seg, hmem, splitOnceEq_eq_none seg h61⟩]
  refine ⟨hpg, ?_⟩
  intro st data A B hbuf hA h7
  rw [process_events, List.filter_append, scanEvents_filter_git, hbuf,
    extractGitInfo_structure A payload B (hbuf ▸ hA) h7, hpg]
  simp

theorem C10_git_segment_without_eq_witness :
    parse_git_info gitBadPayload = none ∧
    (TerminalParser.new.process gitBadData).events.filter isGitEv = [] := by
  have h := C10_git_segment_without_eq gitBadPayload [] (by decide) (by decide)
  refine ⟨h.1, ?_⟩
  have h2 := h.2 TerminalParser.new gitBadData [] [] (by decide)
    (no_occursAt_of_all_range _ _ (by decide) _ (by decide)) (by decide)
  exact h2

/-- The alternate-screen exit sequence followed by the enter sequence. -/
def altExitThenEnter : List Nat := ALT_SCREEN_EXIT ++ ALT_SCREEN_ENTER

/-- C8 — counterexample.  In the stream `CSI ?1049l` then `CSI ?1049h` the
most recent (rightmost) alternate-screen sequence is the ENTER at offset 8,
so the claim requires `is_alt_screen_active()` to be `true`; the code
checks `contains(enter)` first and `contains(exit)` second, so whenever
both are present the result is `false` regardless of their order. -/
theorem C8_counterexample :
    (TerminalParser.new.process altExitThenEnter).is_alt_screen_active = false ∧
    rfindSub ALT_SCREEN_ENTER altExitThenEnter = some 8 ∧
    rfindSub ALT_SCREEN_EXIT altExitThenEnter = some 0 := by
  refine ⟨?_, ?_, ?_⟩ <;> decide

/-- C8 — amended.  After `process`, `is_alt_screen_active()` is `false`
whenever the accumulated buffer contains the exit sequence anywhere;
`true` when it contains the enter sequence but no exit sequence; and
unchanged when it contains neither — the order of the two sequences in the
buffer is irrelevant. -/
theorem C8_alt_screen_amended (st : TerminalParser) (data : List Nat) :
    ((∃ i, occursAt ALT_SCREEN_EXIT (st.buffer ++ data) i) →
      (st.process data).is_alt_screen_active = false) ∧
    ((¬ ∃ i, occursAt ALT_SCREEN_EXIT (st.buffer ++ data) i) →
      (∃ i, occursAt ALT_SCREEN_ENTER (st.buffer ++ data) i) →
      (st.process data).is_alt_screen_active = true) ∧
    ((¬ ∃ i, occursAt ALT_SCREEN_EXIT (st.buffer ++ data) i) →
      (¬ ∃ i, occursAt ALT_SCREEN_ENTER (st.buffer ++ data) i) →
      (st.process data).is_alt_screen_active = st.alt_screen_active) := by
  have hx := containsSub_iff ALT_SCREEN_EXIT (st.buffer ++ data)
    (by simp [ALT_SCREEN_EXIT])
  have he := containsSub_iff ALT_SCREEN_ENTER (st.buffer ++ data)
    (by simp [ALT_SCREEN_ENTER])
  refine ⟨?_, ?_, ?_⟩
  · intro hex
    rw [TerminalParser.is_alt_screen_active, process_alt, if_pos (hx.mpr hex)]
  · intro hnex hen
    have hcx : ¬ (containsSub ALT_SCREEN_EXIT (st.buffer ++ data) = true) :=
      fun hc => hnex (hx.mp hc)
    rw [TerminalParser.is_alt_screen_active, process_alt, if_neg hcx,
      if_pos (he.mpr hen)]
  · intro hnex hnen
    have hcx : ¬ (containsSub ALT_SCREEN_EXIT (st.buffer ++ data) = true) :=
      fun hc => hnex (hx.mp hc)
    have hce : ¬ (containsSub ALT_SCREEN_ENTER (st.buffer ++ data) = true) :=
      fun hc => hnen (he.mp hc)
    rw [TerminalParser.is_alt_screen_active, process_alt, if_neg hcx,
      if_neg hce]

theorem C8_alt_screen_amended_witness :
    (TerminalParser.new.process ALT_SCREEN_EXIT).is_alt_screen_active = false :=
  (C8_alt_screen_amended TerminalParser.new ALT_SCREEN_EXIT).1 ⟨0, by decide⟩

/-! ## Controller lemmas and claims -/

theorem u64cast_of_nonneg (d : Int) (h0 : 0 ≤ d) (h1 : d < 2 ^ 64) :
    u64cast d = d.toNat := by
  rw [u64cast, Int.emod_eq_of_lt h0 h1]

theorem handleEvent_commandStart_some (clock : Nat → Int) (host : HostInfo)
    (pane : Pane) (k : Nat) (b : Block) (t0 : Int)
    (hb : pane.current_block = some b) (ht : b.started_at = some t0) :
    handleEvent clock host ParserEvent.commandStart pane k =
      ({ pane with
          history := pane.history ++
            [{ b with ended_at := some (clock k),
                      duration_ms := some (u64cast (clock (k + 1) - t0)),
                      output := pane.parser.screen_text }],
          current_block :=
            some (newBlock (clock (k + 2)) pane.working_directory host) },
       k + 3) := by
  simp only [handleEvent, hb, ht]

theorem handleEvent_commandStart_none (clock : Nat → Int) (host : HostInfo)
    (pane : Pane) (k : Nat) (hb : pane.current_block = none) :
    handleEvent clock host ParserEvent.commandStart pane k =
      ({ pane with
          current_block := some (newBlock (clock k) pane.working_directory host) },
       k + 1) := by
  simp only [handleEvent, hb]

/-- C2 — amended.  Draining `CommandEnd(code)` on a Running pane sets the
block's exit code, sets `ended_at` from one clock reading and
`duration_ms` from the NEXT clock reading minus `started_at` (a second
`Utc::now()` call — equal to `ended_at - started_at` only when the two
readings coincide), captures the output snapshot from `screen_text()`,
appends the block to history, and leaves the pane Idle; with no Running
block the event has no effect. -/
theorem C2_command_end (clock : Nat → Int) (host : HostInfo) (pane : Pane)
    (k : Nat) (code : Int) :
    (∀ b t0, pane.current_block = some b → b.started_at = some t0 →
      handleEvent clock host (ParserEvent.commandEnd code) pane k =
        ({ pane with
            history := pane.history ++
              [{ b with exit_code := some code,
                        ended_at := some (clock k),
                        duration_ms := some (u64cast (clock (k + 1) - t0)),
                        output := pane.parser.screen_text }],
            current_block := none }, k + 2)) ∧
    (pane.current_block = none →
      handleEvent clock host (ParserEvent.commandEnd code) pane k = (pane, k)) := by
  constructor
  · intro b t0 hb ht
    simp only [handleEvent, hb, ht]
  · intro hb
    simp only [handleEvent, hb]

/-- An identity millisecond clock used for concrete runs. -/
def idClock : Nat → Int := fun k => (k : Int)

/-- A host context with an empty display name. -/
def hostC : HostInfo := { display := [], is_remote := false }

/-- A block in the Running state, started at time 0. -/
def blockRunningC : Block :=
  { command := [], started_at := some 0, ended_at := none, duration_ms := none,
    exit_code := none, cwd := none, output_range := none, pinned := false,
    tags := [], selected := false, output := [], git_branch := none,
    git_status := none, host := [], is_remote := false, collapsed := false }

/-- A pane whose current block is Running. -/
def paneRunningC : Pane :=
  { parser := TerminalParser.new, history := [], current_block := some blockRunningC,
    working_directory := [], scroll_offset := 0, follow_mode := true }

/-- A pane in the Idle state with working directory `"/tmp"`. -/
def paneIdleC : Pane :=
  { parser := TerminalParser.new, history := [], current_block := none,
    working_directory := [47, 116, 109, 112], scroll_offset := 0,
    follow_mode := true }

/-- C2 — counterexample.  With the strictly increasing clock `idClock` and
a block started at time 0, draining `CommandEnd(0)` at reading index 5
stores `ended_at = 5` but `duration_ms = 6`, because the duration is
computed from a second, later `Utc::now()` reading; the claim's
`duration = ended_at - started_at` would require `5`. -/
theorem C2_counterexample :
    ((handleEvent idClock hostC (ParserEvent.commandEnd 0) paneRunningC 5).1.history.map
        Block.started_at = [some 0]) ∧
    ((handleEvent idClock hostC (ParserEvent.commandEnd 0) paneRunningC 5).1.history.map
        Block.ended_at = [some 5]) ∧
    ((handleEvent idClock hostC (ParserEvent.commandEnd 0) paneRunningC 5).1.history.map
        Block.duration_ms = [some 6]) ∧
    (6 : Int) ≠ 5 - 0 := by
  refine ⟨?_, ?_, ?_, by decide⟩ <;> decide

theorem C2_command_end_witness :
    paneRunningC.current_block = some blockRunningC ∧
    handleEvent idClock hostC (ParserEvent.commandEnd 0) paneRunningC 5 =
      ({ paneRunningC with
          history := [{ blockRunningC with
                          exit_code := some 0, ended_at := some 5,
                          duration_ms := some 6, output := [] }],
          current_block := none }, 7) := by
  refine ⟨rfl, ?_⟩
  have h := (C2_command_end idClock hostC paneRunningC 5 0).1 blockRunningC 0 rfl rfl
  rw [h]
  decide

theorem drainEvents_nil (clock : Nat → Int) (host : HostInfo) (pane : Pane)
    (k : Nat) : drainEvents clock host [] pane k = (pane, k) := rfl

theorem drainEvents_cons (clock : Nat → Int) (host : HostInfo)
    (ev : ParserEvent) (rest : List ParserEvent) (pane : Pane) (k : Nat) :
    drainEvents clock host (ev :: rest) pane k =
      drainEvents clock host rest (handleEvent clock host ev pane k).1
        (handleEvent clock host ev pane k).2 := rfl

/-- C3 — amended.  On a pane in the Idle state, draining two consecutive
`CommandStart` events with no intervening `CommandEnd` appends exactly one
defensively finalized block (with `ended_at`, `duration_ms` and
`output = screen_text()` set at finalization time and no exit code) and
leaves exactly one fresh Running block whose `started_at` is set and whose
`cwd` is the pane's last known working directory; the history grows by
exactly 1.  (On a pane that is already Running, the first `CommandStart`
finalizes the pre-existing block as well, so the history grows by 2.) -/
theorem C3_double_command_start (clock : Nat → Int) (host : HostInfo)
    (pane : Pane) (k : Nat) (hidle : pane.current_block = none) :
    drainEvents clock host [ParserEvent.commandStart, ParserEvent.commandStart]
        pane k =
      ({ pane with
          history := pane.history ++
            [{ newBlock (clock k) pane.working_directory host with
                ended_at := some (clock (k + 1)),
                duration_ms := some (u64cast (clock (k + 2) - clock k)),
                output := pane.parser.screen_text }],
          current_block :=
            some (newBlock (clock (k + 3)) pane.working_directory host) },
       k + 4) ∧
    (drainEvents clock host [ParserEvent.commandStart, ParserEvent.commandStart]
        pane k).1.history.length = pane.history.length + 1 := by
  have h1 := handleEvent_commandStart_none clock host pane k hidle
  have h2 := handleEvent_commandStart_some clock host
    { pane with
        current_block := some (newBlock (clock k) pane.working_directory host) }
    (k + 1) (newBlock (clock k) pane.working_directory host) (clock k) rfl rfl
  have hmain : drainEvents clock host
      [ParserEvent.commandStart, ParserEvent.commandStart] pane k =
      ({ pane with
          history := pane.history ++
            [{ newBlock (clock k) pane.working_directory host with
                ended_at := some (clock (k + 1)),
                duration_ms := some (u64cast (clock (k + 2) - clock k)),
                output := pane.parser.screen_text }],
          current_block :=
            some (newBlock (clock (k + 3)) pane.working_directory host) },
       k + 4) := by
    rw [drainEvents_cons, h1]
    dsimp only
    rw [drainEvents_cons, h2]
    dsimp only
    rw [drainEvents_nil]
  refine ⟨hmain, ?_⟩
  rw [hmain]
  simp

theorem C3_double_command_start_witness :
    paneIdleC.current_block = none ∧
    (drainEvents idClock hostC [ParserEvent.commandStart, ParserEvent.commandStart]
        paneIdleC 0).1.history.length = paneIdleC.history.length + 1 :=
  ⟨rfl, (C3_double_command_start idClock hostC paneIdleC 0 rfl).2⟩

/-- C3 — counterexample.  On a pane that is already Running, draining two
consecutive `CommandStart` events appends TWO blocks to history, not one:
the claim's "for every pane ... history length increases by exactly 1"
fails on Running panes. -/
theorem C3_counterexample :
    paneRunningC.history.length = 0 ∧
    (drainEvents idClock hostC [ParserEvent.commandStart, ParserEvent.commandStart]
        paneRunningC 0).1.history.length = 2 := by
  refine ⟨rfl, ?_⟩
  decide

/-- C9 — confirmed.  A block finalized defensively by a subsequent
`CommandStart` (rather than by `CommandEnd`) is appended to history with
its exit code untouched — `none` for a Running block — while a fresh
Running block is installed; so the history can contain finalized blocks
without an exit code. -/
theorem C9_defensive_finalize_keeps_no_exit (clock : Nat → Int)
    (host : HostInfo) (pane : Pane) (k : Nat) (b : Block)
    (hb : pane.current_block = some b) (hec : b.exit_code = none) :
    ∃ fin,
      (handleEvent clock host ParserEvent.commandStart pane k).1.history =
        pane.history ++ [fin] ∧
      fin.exit_code = none ∧
      ((handleEvent clock host ParserEvent.commandStart pane k).1.current_block).isSome
        = true := by
  cases ht : b.started_at with
  | some t0 =>
    refine ⟨{ b with
                ended_at := some (clock k),
                duration_ms := some (u64cast (clock (k + 1) - t0)),
                output := pane.parser.screen_text }, ?_, ?_, ?_⟩
    · rw [handleEvent_commandStart_some clock host pane k b t0 hb ht]
    · simpa using hec
    · rw [handleEvent_commandStart_some clock host pane k b t0 hb ht]
      rfl
  | none =>
    refine ⟨{ b with output := pane.parser.screen_text }, ?_, ?_, ?_⟩
    · simp only [handleEvent, hb, ht]
    · simpa using hec
    · simp only [handleEvent, hb, ht]
      rfl

/-! ## Close-operation lemmas and claims -/

theorem mem_eraseIdx_of_getElem?_ne {α : Type} (l : List α) (x : α) (t i : Nat)
    (ht : l[t]? = some x) (hne : t ≠ i) : x ∈ l.eraseIdx i := by
  by_cases hti : t < i
  · refine List.mem_iff_getElem?.mpr ⟨t, ?_⟩
    rw [List.getElem?_eraseIdx, if_pos hti]
    exact ht
  · refine List.mem_iff_getElem?.mpr ⟨t - 1, ?_⟩
    rw [List.getElem?_eraseIdx, if_neg (by omega)]
    have h1 : t - 1 + 1 = t := by omega
    rw [h1]
    exact ht

/-- C4 — confirmed.  A close operation is refused, leaving the whole
application state (layout, tabs, panes) unchanged, whenever the targeted
pane (for `close_active_pane`) or any pane of the targeted tab (for
`close_tab_at`) has a current block without an exit code; moreover a pane
whose current block lacks an exit code is never removed from the layout by
either close operation. -/
theorem C4_close_refused_while_running (app : App) :
    (∀ i tab, app.layout[i]? = some tab →
      tab.panes.any paneRunning = true → close_tab_at app i = app) ∧
    (∀ tab p, app.layout[app.active_tab]? = some tab →
      tab.panes[tab.active_pane]? = some p → paneRunning p = true →
      close_active_pane app = app) ∧
    (∀ (i t : Nat) (tab : Tab) (p : Pane),
      app.layout[t]? = some tab → p ∈ tab.panes →
      paneRunning p = true →
      ∃ (t' : Nat) (tab' : Tab),
        (close_tab_at app i).layout[t']? = some tab' ∧ p ∈ tab'.panes) ∧
    (∀ (t : Nat) (tab : Tab) (p : Pane),
      app.layout[t]? = some tab → p ∈ tab.panes →
      paneRunning p = true →
      ∃ (t' : Nat) (tab' : Tab),
        (close_active_pane app).layout[t']? = some tab' ∧ p ∈ tab'.panes) := by
  refine ⟨?_, ?_, ?_, ?_⟩
  · -- close_tab_at refusal
    intro i tab htab hrun
    by_cases hlen : app.layout.length ≤ 1
    · simp only [close_tab_at, if_pos hlen]
    · simp only [close_tab_at, if_neg hlen, htab, hrun, if_true]
  · -- close_active_pane refusal
    intro tab p htab hp hrun
    by_cases hlen : tab.panes.length ≤ 1
    · simp only [close_active_pane, htab, if_pos hlen]
    · simp only [close_active_pane, htab, if_neg hlen, hp, hrun, if_true]
  · -- close_tab_at preserves running panes
    intro i t tab p htab hp hrun
    by_cases hlen : app.layout.length ≤ 1
    · refine ⟨t, tab, ?_, hp⟩
      simp only [close_tab_at, if_pos hlen]
      exact htab
    · cases hgt : app.layout[i]? with
      | none =>
        have hge : app.layout.length ≤ i := by
          by_contra hc
          push_neg at hc
          rw [List.getElem?_eq_getElem hc] at hgt
          exact Option.noConfusion hgt
        refine ⟨t, tab, ?_, hp⟩
        simp only [close_tab_at, if_neg hlen, hgt, Bool.false_eq_true,
          if_false, if_neg (by omega : ¬ i < app.layout.length)]
        exact htab
      | some tabI =>
        have hilt : i < app.layout.length := (List.getElem?_eq_some_iff.mp hgt).1
        by_cases hrunI : tabI.panes.any paneRunning = true
        · refine ⟨t, tab, ?_, hp⟩
          simp only [close_tab_at, if_neg hlen, hgt, hrunI, if_true]
          exact htab
        · have htne : t ≠ i := by
            intro he
            subst he
            rw [htab] at hgt
            cases hgt
            exact hrunI (List.any_eq_true.mpr ⟨p, hp, hrun⟩)
          have hres : (close_tab_at app i).layout = app.layout.eraseIdx i := by
            simp only [close_tab_at, if_neg hlen, hgt, if_neg hrunI,
              if_pos hilt]
          refine ⟨if t < i then t else t - 1, tab, ?_, hp⟩
          rw [hres]
          by_cases hti : t < i
          · rw [if_pos hti, List.getElem?_eraseIdx, if_pos hti]
            exact htab
          · rw [if_neg hti, List.getElem?_eraseIdx, if_neg (by omega)]
            have h1 : t - 1 + 1 = t := by omega
            rw [h1]
            exact htab
  · -- close_active_pane preserves running panes
    intro t tab p htab hp hrun
    cases hat : app.layout[app.active_tab]? with
    | none =>
      refine ⟨t, tab, ?_, hp⟩
      simp only [close_active_pane, hat]
      exact htab
    | some tabA =>
      have hatlt : app.active_tab < app.layout.length :=
        (List.getElem?_eq_some_iff.mp hat).1
      by_cases hlen : tabA.panes.length ≤ 1
      · refine ⟨t, tab, ?_, hp⟩
        simp only [close_active_pane, hat, if_pos hlen]
        exact htab
      · cases hq : tabA.panes[tabA.active_pane]? with
        | some q =>
          by_cases hrq : paneRunning q = true
          · refine ⟨t, tab, ?_, hp⟩
            simp only [close_active_pane, hat, if_neg hlen, hq, hrq, if_true]
            exact htab
          · have hres : ∃ tab1, (close_active_pane app).layout =
                app.layout.set app.active_tab tab1 ∧
                tab1.panes = tabA.panes.eraseIdx tabA.active_pane := by
              refine ⟨{ tabA with
                  panes := tabA.panes.eraseIdx tabA.active_pane,
                  root := reindex_layout
                    (match remove_pane_from_layout tabA.root tabA.active_pane with
                     | some r => r
                     | none => LayoutNode.leaf 0) tabA.active_pane,
                  active_pane :=
                    if (tabA.panes.eraseIdx tabA.active_pane).isEmpty then 0
                    else if tabA.active_pane > 0 then tabA.active_pane - 1
                    else 0 }, ?_, rfl⟩
              simp only [close_active_pane, hat, if_neg hlen, hq, if_neg hrq]
            obtain ⟨tab1, hlay, hpanes⟩ := hres
            by_cases hta : t = app.active_tab
            · subst hta
              rw [htab] at hat
              cases hat
              obtain ⟨j, hj⟩ := List.mem_iff_getElem?.mp hp
              have hjne : j ≠ tab.active_pane := by
                intro he
                subst he
                rw [hj] at hq
                cases hq
                exact hrq hrun
              refine ⟨app.active_tab, tab1, ?_, ?_⟩
              · rw [hlay]
                exact List.getElem?_set_self hatlt
              · rw [hpanes]
                exact mem_eraseIdx_of_getElem?_ne tab.panes p j tab.active_pane
                  hj hjne
            · refine ⟨t, tab, ?_, hp⟩
              rw [hlay, List.getElem?_set_ne (fun he => hta he.symm)]
              exact htab
        | none =>
          have hge : tabA.panes.length ≤ tabA.active_pane := by
            by_contra hc
            push_neg at hc
            rw [List.getElem?_eq_getElem hc] at hq
            exact Option.noConfusion hq
          have hres : ∃ tab1, (close_active_pane app).layout =
              app.layout.set app.active_tab tab1 ∧
              tab1.panes = tabA.panes.eraseIdx tabA.active_pane := by
            refine ⟨{ tabA with
                panes := tabA.panes.eraseIdx tabA.active_pane,
                root := reindex_layout
                  (match remove_pane_from_layout tabA.root tabA.active_pane with
                   | some r => r
                   | none => LayoutNode.leaf 0) tabA.active_pane,
                active_pane :=
                  if (tabA.panes.eraseIdx tabA.active_pane).isEmpty then 0
                  else if tabA.active_pane > 0 then tabA.active_pane - 1
                  else 0 }, ?_, rfl⟩
            simp only [close_active_pane, hat, if_neg hlen, hq,
              Bool.false_eq_true, if_false]
          obtain ⟨tab1, hlay, hpanes⟩ := hres
          by_cases hta : t = app.active_tab
          · subst hta
            rw [htab] at hat
            cases hat
            refine ⟨app.active_tab, tab1, ?_, ?_⟩
            · rw [hlay]
              exact List.getElem?_set_self hatlt
            · rw [hpanes, List.eraseIdx_of_length_le hge]
              exact hp
          · refine ⟨t, tab, ?_, hp⟩
            rw [hlay, List.getElem?_set_ne (fun he => hta he.symm)]
            exact htab

/-- A tab containing one Running pane and one Idle pane. -/
def tabRunningC : Tab :=
  { root := LayoutNode.split Axis.horizontal (1/2)
      (LayoutNode.leaf 0) (LayoutNode.leaf 1),
    panes := [paneRunningC, paneIdleC], active_pane := 0, title := [] }

/-- A tab with a single Idle pane. -/
def tabIdleC : Tab :=
  { root := LayoutNode.leaf 0, panes := [paneIdleC], active_pane := 0,
    title := [] }

/-- A two-tab application whose first tab has a Running active pane. -/
def appC : App :=
  { layout := [tabRunningC, tabIdleC], active_tab := 0,
    render_cache := [], row_hashes := [] }

theorem C4_close_refused_while_running_witness :
    appC.layout[0]? = some tabRunningC ∧
    tabRunningC.panes.any paneRunning = true ∧
    tabRunningC.panes[tabRunningC.active_pane]? = some paneRunningC ∧
    paneRunning paneRunningC = true ∧
    close_tab_at appC 0 = appC ∧
    close_active_pane appC = appC := by
  refine ⟨rfl, by decide, rfl, by decide, ?_, ?_⟩
  · exact (C4_close_refused_while_running appC).1 0 tabRunningC rfl (by decide)
  · exact (C4_close_refused_while_running appC).2.1 tabRunningC paneRunningC
      rfl rfl (by decide)

/-! ## Render diff cache claims -/

theorem compute_row_hash_inj (r0 r1 : List Cell)
    (h : compute_row_hash r0 = compute_row_hash r1) : r0 = r1 := by
  have hinj : Function.Injective (fun c : Cell => (c.contents, c.fg, c.bg)) := by
    intro a b hab
    cases a
    cases b
    simpa using hab
  exact List.map_injective_iff.mpr hinj h

/-- C7 — confirmed.  For a row whose freshly computed content/style hash
equals the stored hash under key `(tab_id, pane_id, row)`, the draw pass
reuses the cached style runs without invoking `compute_runs` and leaves
both maps untouched; when the cached entry was produced by `compute_runs`
on a row with the same hash (the invariant the draw loop itself
maintains), the reused runs equal a forced recomputation on the current
row; on a hash mismatch the freshly computed runs are drawn and both the
stored hash and the stored runs are overwritten. -/
theorem C7_row_cache (tab_id pane_id row_idx : Nat) (row r0 : List Cell)
    (cw : ℚ) (cache : List (CacheKey × List StyleRun))
    (hashes : List (CacheKey × List (List Nat × VtColor × VtColor))) :
    (mapLookup hashes (tab_id, pane_id, row_idx) = some (compute_row_hash row) →
      drawRowStep tab_id pane_id row_idx row cw cache hashes =
        ((mapLookup cache (tab_id, pane_id, row_idx)).getD [], cache, hashes,
         false)) ∧
    (mapLookup hashes (tab_id, pane_id, row_idx) = some (compute_row_hash row) →
      mapLookup cache (tab_id, pane_id, row_idx) = some (compute_runs r0 cw) →
      compute_row_hash r0 = compute_row_hash row →
      (drawRowStep tab_id pane_id row_idx row cw cache hashes).1 =
        compute_runs row cw) ∧
    (mapLookup hashes (tab_id, pane_id, row_idx) ≠ some (compute_row_hash row) →
      drawRowStep tab_id pane_id row_idx row cw cache hashes =
        (compute_runs row cw,
         mapInsert cache (tab_id, pane_id, row_idx) (compute_runs row cw),
         mapInsert hashes (tab_id, pane_id, row_idx) (compute_row_hash row),
         true)) := by
  refine ⟨?_, ?_, ?_⟩
  · intro hmatch
    simp only [drawRowStep]
    rw [if_neg (not_not_intro hmatch)]
  · intro hmatch hcache hhash
    have heq : r0 = row := compute_row_hash_inj r0 row hhash
    subst heq
    simp only [drawRowStep]
    rw [if_neg (not_not_intro hmatch), hcache]
    rfl
  · intro hmiss
    simp only [drawRowStep]
    rw [if_pos hmiss]

/-- A one-cell screen row. -/
def rowC : List Cell :=
  [{ contents := [120], fg := VtColor.default, bg := VtColor.default }]

def keyC : CacheKey := (0, 0, 0)

/-- Caches populated by a previous draw of `rowC`. -/
def cacheC : List (CacheKey × List StyleRun) :=
  mapInsert [] keyC (compute_runs rowC 8)

def hashesC : List (CacheKey × List (List Nat × VtColor × VtColor)) :=
  mapInsert [] keyC (compute_row_hash rowC)

theorem C7_row_cache_witness :
    mapLookup hashesC keyC = some (compute_row_hash rowC) ∧
    drawRowStep 0 0 0 rowC 8 cacheC hashesC =
      ((mapLookup cacheC keyC).getD [], cacheC, hashesC, false) ∧
    (drawRowStep 0 0 0 rowC 8 cacheC hashesC).1 = compute_runs rowC 8 := by
  have hm : mapLookup hashesC keyC = some (compute_row_hash rowC) := rfl
  have hc : mapLookup cacheC keyC = some (compute_runs rowC 8) := rfl
  exact ⟨hm, (C7_row_cache 0 0 0 rowC rowC 8 cacheC hashesC).1 hm,
    (C7_row_cache 0 0 0 rowC rowC 8 cacheC hashesC).2.1 hm hc rfl⟩

theorem C9_defensive_finalize_keeps_no_exit_witness :
    paneRunningC.current_block = some blockRunningC ∧
    blockRunningC.exit_code = none ∧
    ∃ fin,
      (handleEvent idClock hostC ParserEvent.commandStart paneRunningC 0).1.history =
        paneRunningC.history ++ [fin] ∧
      fin.exit_code = none ∧
      ((handleEvent idClock hostC ParserEvent.commandStart paneRunningC 0).1.current_block).isSome
        = true :=
  ⟨rfl, rfl,
    C9_defensive_finalize_keeps_no_exit idClock hostC paneRunningC 0
      blockRunningC rfl rfl⟩

end Tant
